import Mathlib

/-!
Verification of the goc-notion-rag ingestion/retrieval core against its
natural-language specification.

Shallow embedding of:
* `notion/loader.go` : `chunkText` (text chunking by code points);
* `embedding/gemini.go` : `EmbedText` (retry loop with rate-limit
  classification and task-type save/restore);
* `db/store.go` : `Store.AddDocument`, `Store.Search` (validation and the
  0.70 similarity threshold filter);
* `main.go` : `processDocumentsPipeline` (worker loop over the document
  queue, shared statistics, coordinator return value).

Conventions: Go strings are Lean `String`s; Go `[]rune(s)` is `s.data`
(code points); Go `len(s)` on a string (UTF-8 byte count) is `utf8Len
s.data`. Go `float32` similarity scores and embedding vectors are modelled
over `ℚ` (only order comparisons and equality of these values occur in the
code paths under study; the `float64 → float32` element conversion in
`EmbedText` is modelled as the identity). Remote calls (Gemini
`EmbedContent`, chromem `QueryEmbedding`/`Add`) are oracles passed as
arguments. The concurrent pipeline is sequentialised: each worker item is
one `processDoc` step, and the coordinator's join structure (`wg.Wait`,
then `producerWg.Wait`, then `return producerErr`) appears as an ordered
event list.
-/

/-! ## Chunker (`notion/loader.go`, `chunkText`) -/

/-- Go `len(text)` for a string: total UTF-8 byte size of the code points. -/
def utf8Len (l : List Char) : Nat := (l.map Char.utf8Size).sum

/-- The rune-chunking loop of `chunkText`: `for i := 0; i < len(runes); i += size`
emits `string(runes[i:min(i+size, len(runes))])`.  Each iteration keeps
`runes[i:]`, i.e. drops `size` runes (`List.drop (size-1) cs` on the tail
`cs` equals `List.drop size (c :: cs)` for `size ≥ 1`; the Go loop does not
terminate for `size ≤ 0` and is only ever called with `size = 1000`).
`fuel` bounds the number of iterations; callers pass `fuel = runes.length`,
which suffices since every iteration with a non-empty remainder consumes at
least one rune. -/
def chunkRunesF (size : Nat) : Nat → List Char → List String
  | _, [] => []
  | 0, _ :: _ => []
  | fuel + 1, c :: cs =>
      String.mk (List.take size (c :: cs)) :: chunkRunesF size fuel (List.drop (size - 1) cs)

/-- `chunkText(text, size)` from `notion/loader.go`: if the byte length of
`text` is at most `size`, a single chunk `[text]`; otherwise chunk the rune
slice in steps of `size`. -/
def chunkText (text : String) (size : Nat) : List String :=
  if utf8Len text.data ≤ size then [text]
  else chunkRunesF size text.data.length text.data

/-- In-order concatenation of a chunk list. -/
def concatStrings : List String → String
  | [] => ""
  | s :: rest => s ++ concatStrings rest

/-- The code-point lengths `chunkRunesF` produces, as a function of the
input length alone (`min size n` per chunk, advancing by `size`). -/
def lenChunks (size : Nat) : Nat → Nat → List Nat
  | 0, _ => []
  | _ + 1, 0 => []
  | fuel + 1, n + 1 => min size (n + 1) :: lenChunks size fuel (n - (size - 1))

/-! ## Embedder (`embedding/gemini.go`, `EmbedText`) -/

/-- `strings.Contains` on rune lists: `pat` occurs at the head. -/
def listStarts : List Char → List Char → Bool
  | _, [] => true
  | [], _ :: _ => false
  | c :: cs, p :: ps => c == p && listStarts cs ps

/-- `strings.Contains` on rune lists: `pat` occurs somewhere in `s`. -/
def listHasSub : List Char → List Char → Bool
  | [], pat => listStarts [] pat
  | c :: cs, pat => listStarts (c :: cs) pat || listHasSub cs pat

/-- Go `strings.Contains(s, sub)`. -/
def goContains (s sub : String) : Bool := listHasSub s.data sub.data

/-- Go `strings.ToLower(s)` (the classification substrings are ASCII, so
per-rune lowering is faithful here). -/
def goToLower (s : String) : String := String.mk (s.data.map Char.toLower)

/-- The transient-error classifier of `EmbedText` (and `generateAnswer`):
`"429"`, or case-insensitively `"rate limit"`, `"quota"`,
`"resource exhausted"`. -/
def isRateLimit (errStr : String) : Bool :=
  goContains errStr "429" ||
    goContains (goToLower errStr) "rate limit" ||
    goContains (goToLower errStr) "quota" ||
    goContains (goToLower errStr) "resource exhausted"

/-- `genai.TaskType` values the switch in `EmbedText` can produce. -/
inductive TaskType where
  | unspecified
  | retrievalDocument
  | retrievalQuery
deriving DecidableEq

/-- The mutable task-type field of `e.model` (the only embedder state
`EmbedText` touches). -/
structure EmbedderModel where
  taskType : TaskType
deriving DecidableEq

/-- The `switch taskType` at the top of `EmbedText`. -/
def taskTypeEnumOf (taskType : String) : TaskType :=
  if taskType = "RETRIEVAL_DOCUMENT" then .retrievalDocument
  else if taskType = "RETRIEVAL_QUERY" then .retrievalQuery
  else .unspecified

/-- Outcome of one `e.model.EmbedContent` call: success carries
`resp.Embedding` (`none` models a nil embedding in the response), failure
carries `err.Error()`. -/
inductive CallOutcome where
  | success (embedding : Option (List ℚ))
  | failure (msg : String)

/-- The distinct error shapes `EmbedText` can return. -/
inductive EmbedError where
  | emptyEmbedding
  | embedFailed (msg : String)
  | maxRetriesExceeded (msg : String)
deriving DecidableEq

/-- Observable behaviour of one `EmbedText` run: the returned value, how
many `EmbedContent` calls were made, and how many 30s delays were slept. -/
structure EmbedRun where
  result : Except EmbedError (List ℚ)
  callsMade : Nat
  delays : Nat

def maxRetries : Nat := 3

/-- The `for attempt := 0; attempt < maxRetries; attempt++` loop of
`EmbedText`.  `calls i` is the outcome of the `EmbedContent` call on
attempt `i`.  `fuel` is `maxRetries - attempt` (so `fuel = 0` is exactly
the loop-exit line `return … "최대 재시도 횟수 초과" …`); on a failure that is
rate-limited and not the last attempt, sleep and continue, else return the
error wrapped as `"임베딩 생성 실패"`. -/
def embedLoop (calls : Nat → CallOutcome) :
    Nat → Nat → String → Nat → Nat → EmbedRun
  | 0, _, lastErr, made, delays =>
      ⟨.error (.maxRetriesExceeded lastErr), made, delays⟩
  | fuel + 1, attempt, _, made, delays =>
      match calls attempt with
      | .success none => ⟨.error .emptyEmbedding, made + 1, delays⟩
      | .success (some values) => ⟨.ok values, made + 1, delays⟩
      | .failure msg =>
          if isRateLimit msg && decide (attempt < maxRetries - 1) then
            embedLoop calls fuel (attempt + 1) msg (made + 1) (delays + 1)
          else ⟨.error (.embedFailed msg), made + 1, delays⟩

/-- `EmbedText(text, taskType)` on embedder state `e`: save
`originalTaskType`, set the task type from the argument, run the retry
loop, and (the deferred function) restore the original task type on every
return path.  The `text` argument reaches the remote call; the call's
outcome is the oracle `calls`. -/
def EmbedText (e : EmbedderModel) (text taskType : String)
    (calls : Nat → CallOutcome) : EmbedRun × EmbedderModel :=
  let originalTaskType := e.taskType
  let eSet : EmbedderModel := { e with taskType := taskTypeEnumOf taskType }
  let run := embedLoop calls maxRetries 0 "" 0 0
  (run, { eSet with taskType := originalTaskType })

/-! ## Vector store (`db/store.go`) -/

/-- `models.Document`.  An absent (`nil`) vector and a zero-length vector
are both `[]`. -/
structure Document where
  id : String
  title : String
  content : String
  vector : List ℚ
  meta : List (String × String)
  parentPageID : String

/-- One neighbour returned by `collection.QueryEmbedding`:  id, content,
metadata (`none` models a nil map) and cosine similarity. -/
structure QueryResult where
  id : String
  content : String
  metadata : Option (List (String × String))
  similarity : ℚ

/-- Go map insertion on an association-list model (overwrite the key). -/
def mapPut (m : List (String × String)) (k v : String) : List (String × String) :=
  (m.filter (fun p => p.1 ≠ k)) ++ [(k, v)]

/-- Go map lookup. -/
def metaLookup (m : List (String × String)) (k : String) : Option String :=
  (m.find? (fun p => p.1 = k)).map Prod.snd

/-- The metadata map `AddDocument` builds: `title`, `parent_page_id`, then
every entry of `doc.Meta`. -/
def buildMetadata (doc : Document) : List (String × String) :=
  doc.meta.foldl (fun m kv => mapPut m kv.1 kv.2)
    (mapPut (mapPut [] "title" doc.title) "parent_page_id" doc.parentPageID)

/-- The `Document` a `QueryResult` is converted to inside `Store.Search`:
id and content, then metadata parsed with `title` and `parent_page_id`
extracted (the vector is not populated). -/
def resultToDoc (r : QueryResult) : Document :=
  match r.metadata with
  | none =>
      { id := r.id, title := "", content := r.content, vector := [],
        meta := [], parentPageID := "" }
  | some m =>
      { id := r.id, content := r.content, vector := [], meta := m,
        title := (metaLookup m "title").getD "",
        parentPageID := (metaLookup m "parent_page_id").getD "" }

/-- The result-conversion loop of `Store.Search`: neighbours with
`Similarity < 0.7` are skipped (`continue`), the rest are converted in
order. -/
def convertResults : List QueryResult → List Document
  | [] => []
  | r :: rs =>
      if r.similarity < 7 / 10 then convertResults rs
      else resultToDoc r :: convertResults rs

/-- A call issued to the underlying chromem collection. -/
inductive StoreCall where
  | add (ids : List String) (vectors : List (List ℚ))
      (metadatas : List (List (String × String))) (contents : List String)
  | queryEmbedding (queryVector : List ℚ) (topK : Nat)

/-- The underlying collection's contents: one `(id, vector, metadata,
content)` record per added document. -/
structure StoreState where
  collection : List (String × List ℚ × List (String × String) × String)

/-- `Store.AddDocument`: reject a document with a nil/empty vector before
any store call; otherwise build the metadata and call `collection.Add`
with singleton batches (`addErr` is that call's outcome).  Returns the Go
result, the store state after the call, and the list of underlying calls
made. -/
def Store.AddDocument (s : StoreState) (doc : Document)
    (addErr : Option String) :
    Except String Unit × StoreState × List StoreCall :=
  if doc.vector = [] then
    (.error ("문서에 임베딩 벡터가 없습니다: " ++ doc.id), s, [])
  else
    let metadata := buildMetadata doc
    let call := StoreCall.add [doc.id] [doc.vector] [metadata] [doc.content]
    match addErr with
    | some e => (.error ("문서 추가 실패: " ++ e), s, [call])
    | none =>
        (.ok (), ⟨s.collection ++ [(doc.id, doc.vector, metadata, doc.content)]⟩,
          [call])

/-- `Store.Search`: reject a nil/empty query vector before any store call;
otherwise call `collection.QueryEmbedding` (outcome `queryResp`) and
convert the neighbours, dropping those with similarity below 0.7. -/
def Store.Search (s : StoreState) (queryVector : List ℚ) (topK : Nat)
    (queryResp : Except String (List QueryResult)) :
    Except String (List Document) × StoreState × List StoreCall :=
  if queryVector = [] then (.error "쿼리 벡터가 비어있습니다", s, [])
  else
    match queryResp with
    | .error e =>
        (.error ("검색 실패: " ++ e), s, [.queryEmbedding queryVector topK])
    | .ok results =>
        (.ok (convertResults results), s, [.queryEmbedding queryVector topK])

/-! ## Pipeline workers and coordinator (`main.go`,
`processDocumentsPipeline`) -/

/-- The four shared atomic counters. -/
structure PipelineStats where
  processed : Nat
  success : Nat
  errors : Nat
  skipped : Nat

/-- One dequeued document together with the outcomes of the remote steps
its processing would take: the embedding call's result and the
`store.AddDocument` persist error (if any). -/
structure WorkItem where
  doc : Document
  embedRes : Except String (List ℚ)
  persistErr : Option String

/-- One iteration of the worker loop body (`for doc := range docChan`):
skip when `len([]rune(doc.Content)) < 50`; otherwise compose the embedding
text (`title + "\n\n" + content` when a title is present), call the
embedder, and on success persist.  Returns the updated stats, the texts
sent to the embedder, and the documents passed to `store.AddDocument`. -/
def processDoc (stats : PipelineStats) (doc : Document)
    (embedRes : Except String (List ℚ)) (persistErr : Option String) :
    PipelineStats × List String × List Document :=
  if doc.content.length < 50 then
    ({ stats with skipped := stats.skipped + 1, processed := stats.processed + 1 },
      [], [])
  else
    let embeddingText :=
      if doc.title ≠ "" then doc.title ++ "\n\n" ++ doc.content else doc.content
    match embedRes with
    | .error _ =>
        ({ stats with errors := stats.errors + 1, processed := stats.processed + 1 },
          [embeddingText], [])
    | .ok vector =>
        let doc2 := { doc with vector := vector }
        match persistErr with
        | some _ =>
            ({ stats with errors := stats.errors + 1, processed := stats.processed + 1 },
              [embeddingText], [doc2])
        | none =>
            ({ stats with success := stats.success + 1, processed := stats.processed + 1 },
              [embeddingText], [doc2])

/-- The worker pool, sequentialised: every item any worker dequeues is one
`processDoc` step on the shared stats (each increment is atomic in the
source, so the final counters equal this fold in any interleaving). -/
def runWorkers (stats : PipelineStats) (items : List WorkItem) : PipelineStats :=
  items.foldl (fun st it => (processDoc st it.doc it.embedRes it.persistErr).1) stats

/-- Synchronisation events of the coordinator's tail: each worker's
`wg.Done`, the producer join, then the coordinator's return. -/
inductive PipelineEvent where
  | workerExited (id : Nat)
  | producerJoined
  | returned (err : Option String)

/-- `processDocumentsPipeline`, sequentialised: workers drain the closed
queue (`items` is everything the producer enqueued, `producerErr` its
error), `wg.Wait()` observes every worker exit, `producerWg.Wait()` joins
the producer, and the coordinator returns `producerErr`.  Returns the
final stats, the return value, and the ordered event trace of that tail. -/
def processDocumentsPipeline (workerCount : Nat) (items : List WorkItem)
    (producerErr : Option String) :
    PipelineStats × Option String × List PipelineEvent :=
  let finalStats := runWorkers ⟨0, 0, 0, 0⟩ items
  let events :=
    ((List.range workerCount).map PipelineEvent.workerExited) ++
      [PipelineEvent.producerJoined, PipelineEvent.returned producerErr]
  (finalStats, producerErr, events)

/-! ## Chunker lemmas -/

theorem strData_append (a b : String) : (a ++ b).data = a.data ++ b.data := by
  cases a
  cases b
  rfl

theorem strEta (s : String) : String.mk s.data = s := by
  cases s
  rfl

theorem strAppend_empty (s : String) : s ++ "" = s := by
  cases s
  show String.mk (_ ++ []) = _
  rw [List.append_nil]

theorem utf8Len_ge_length (l : List Char) : l.length ≤ utf8Len l := by
  induction l with
  | nil => simp [utf8Len]
  | cons c cs ih =>
      have hc := Char.utf8Size_pos c
      simp only [utf8Len, List.map_cons, List.sum_cons, List.length_cons] at ih ⊢
      omega

theorem chunkRunesF_concat (size : Nat) (h : 0 < size) :
    ∀ fuel l, l.length ≤ fuel →
      (concatStrings (chunkRunesF size fuel l)).data = l := by
  intro fuel
  induction fuel with
  | zero =>
      intro l hl
      cases l with
      | nil => rfl
      | cons c cs => simp at hl
  | succ f ih =>
      intro l hl
      cases l with
      | nil => rfl
      | cons c cs =>
          have hd : (List.drop (size - 1) cs).length ≤ f := by
            simp only [List.length_drop]
            simp only [List.length_cons] at hl
            omega
          simp only [chunkRunesF, concatStrings, strData_append, ih _ hd]
          show List.take size (c :: cs) ++ List.drop (size - 1) cs = c :: cs
          obtain ⟨s, rfl⟩ : ∃ s, size = s + 1 := ⟨size - 1, by omega⟩
          simp only [List.take_succ_cons, Nat.add_sub_cancel, List.cons_append,
            List.take_append_drop]

theorem chunkRunesF_mem_ne_nil (size : Nat) (h : 0 < size) :
    ∀ fuel l c, c ∈ chunkRunesF size fuel l → c.data ≠ [] := by
  intro fuel
  induction fuel with
  | zero =>
      intro l c hc
      cases l <;> simp [chunkRunesF] at hc
  | succ f ih =>
      intro l c hc
      cases l with
      | nil => simp [chunkRunesF] at hc
      | cons a as =>
          simp only [chunkRunesF, List.mem_cons] at hc
          rcases hc with rfl | hc
          · obtain ⟨s, rfl⟩ : ∃ s, size = s + 1 := ⟨size - 1, by omega⟩
            simp [List.take_succ_cons]
          · exact ih _ _ hc

theorem chunkRunesF_nil_of_nil (size fuel : Nat) :
    chunkRunesF size fuel [] = [] := by
  cases fuel <;> rfl

theorem chunkRunesF_dropLast_sizes (size : Nat) (h : 0 < size) :
    ∀ fuel l, l.length ≤ fuel →
      ∀ c ∈ (chunkRunesF size fuel l).dropLast, c.data.length = size := by
  intro fuel
  induction fuel with
  | zero =>
      intro l hl c hc
      cases l with
      | nil => simp [chunkRunesF] at hc
      | cons a as => simp at hl
  | succ f ih =>
      intro l hl c hc
      cases l with
      | nil => simp [chunkRunesF] at hc
      | cons a as =>
          by_cases hrest : chunkRunesF size f (List.drop (size - 1) as) = []
          · simp [chunkRunesF, hrest] at hc
          · rw [chunkRunesF, List.dropLast_cons_of_ne_nil hrest, List.mem_cons] at hc
            rcases hc with rfl | hc
            · have hne : List.drop (size - 1) as ≠ [] := by
                intro hnil
                exact hrest (by rw [hnil]; exact chunkRunesF_nil_of_nil size f)
              have hlt : size - 1 < as.length := by
                by_contra hge
                exact hne (List.drop_eq_nil_iff.mpr (by omega))
              show (String.mk (List.take size (a :: as))).data.length = size
              simp only [List.length_take, List.length_cons]
              omega
            · simp only [List.length_cons] at hl
              exact ih (List.drop (size - 1) as)
                (by simp only [List.length_drop]; omega) c hc

theorem chunkRunesF_map_len (size : Nat) (h : 0 < size) :
    ∀ fuel l, List.map (fun s => s.data.length) (chunkRunesF size fuel l)
      = lenChunks size fuel l.length := by
  intro fuel
  induction fuel with
  | zero =>
      intro l
      cases l <;> rfl
  | succ f ih =>
      intro l
      cases l with
      | nil => rfl
      | cons a as =>
          simp only [chunkRunesF, List.map_cons, ih, lenChunks, List.length_cons]
          simp only [List.length_take, List.length_cons, List.length_drop]

/-- C4: for every text and positive `maxSize`, the chunks concatenated in
order equal the text exactly, every chunk except possibly the last has
length exactly `maxSize` code points, and an input of 2500 code points
with `maxSize = 1000` yields exactly 3 chunks of code-point lengths
1000, 1000, 500. -/
theorem chunkText_concat_sizes (t : String) (size : Nat) (h : 0 < size) :
    concatStrings (chunkText t size) = t
    ∧ (∀ c ∈ (chunkText t size).dropLast, c.data.length = size)
    ∧ (t.data.length = 2500 → size = 1000 →
        List.map (fun c => c.data.length) (chunkText t size) = [1000, 1000, 500]) := by
  unfold chunkText
  by_cases hb : utf8Len t.data ≤ size
  · simp only [hb, if_true]
    refine ⟨?_, ?_, ?_⟩
    · show t ++ concatStrings [] = t
      exact strAppend_empty t
    · intro c hc
      simp [List.dropLast] at hc
    · intro h25 hs
      exfalso
      have := utf8Len_ge_length t.data
      omega
  · simp only [hb, if_false]
    refine ⟨?_, ?_, ?_⟩
    · have hd := chunkRunesF_concat size h t.data.length t.data le_rfl
      have := congrArg String.mk hd
      rwa [strEta] at this
    · exact chunkRunesF_dropLast_sizes size h t.data.length t.data le_rfl
    · intro h25 hs
      subst hs
      rw [chunkRunesF_map_len 1000 h, h25]
      decide

/-- Witness for C4 at `t = "ab"`, `maxSize = 1`. -/
theorem chunkText_concat_sizes_witness :
    concatStrings (chunkText "ab" 1) = "ab"
    ∧ (∀ c ∈ (chunkText "ab" 1).dropLast, c.data.length = 1)
    ∧ ("ab".data.length = 2500 → 1 = 1000 →
        List.map (fun c => c.data.length) (chunkText "ab" 1) = [1000, 1000, 500]) :=
  chunkText_concat_sizes "ab" 1 (by decide)

/-- C5: for every positive `maxSize`, no chunk is empty unless the input
text is empty, and chunking the empty string returns `[""]`. -/
theorem chunkText_nonempty_chunks (t : String) (size : Nat) (h : 0 < size) :
    (∀ c ∈ chunkText t size, c = "" → t = "")
    ∧ chunkText "" size = [""] := by
  constructor
  · intro c hc hce
    unfold chunkText at hc
    by_cases hb : utf8Len t.data ≤ size
    · simp only [hb, if_true, List.mem_singleton] at hc
      rw [← hc, hce]
    · simp only [hb, if_false] at hc
      exact absurd (congrArg String.data hce)
        (chunkRunesF_mem_ne_nil size h t.data.length t.data c hc)
  · unfold chunkText
    simp [utf8Len]

/-- Witness for C5 at `t = "ab"`, `maxSize = 1`. -/
theorem chunkText_nonempty_chunks_witness :
    (∀ c ∈ chunkText "ab" 1, c = "" → "ab" = "")
    ∧ chunkText "" 1 = [""] :=
  chunkText_nonempty_chunks "ab" 1 (by decide)

/-! ## Embedder lemmas -/

theorem embedLoop_success (calls : Nat → CallOutcome) (fuel attempt : Nat)
    (lastErr : String) (made delays : Nat) (values : List ℚ)
    (hc : calls attempt = .success (some values)) :
    embedLoop calls (fuel + 1) attempt lastErr made delays
      = ⟨.ok values, made + 1, delays⟩ := by
  simp [embedLoop, hc]

theorem embedLoop_step_transient (calls : Nat → CallOutcome) (fuel attempt : Nat)
    (lastErr : String) (made delays : Nat) (msg : String)
    (hc : calls attempt = .failure msg) (hr : isRateLimit msg = true)
    (hlt : attempt < maxRetries - 1) :
    embedLoop calls (fuel + 1) attempt lastErr made delays
      = embedLoop calls fuel (attempt + 1) msg (made + 1) (delays + 1) := by
  simp [embedLoop, hc, hr, hlt]

theorem embedLoop_step_noRetry (calls : Nat → CallOutcome) (fuel attempt : Nat)
    (lastErr : String) (made delays : Nat) (msg : String)
    (hc : calls attempt = .failure msg)
    (hcond : (isRateLimit msg && decide (attempt < maxRetries - 1)) = false) :
    embedLoop calls (fuel + 1) attempt lastErr made delays
      = ⟨.error (.embedFailed msg), made + 1, delays⟩ := by
  simp only [embedLoop, hc, hcond]
  rfl

/-- C1 (amended): a transient call that fails exactly `k < 3` times then
succeeds returns the success result after exactly `k` delays; a call that
always fails transiently performs exactly 3 attempts (2 delays) and
returns the last error wrapped as the generic embedding-failure error
(`"임베딩 생성 실패"` — the `"최대 재시도 횟수 초과"` / max-retries wrap is
unreachable); a fatal first failure returns immediately after 1 attempt
and 0 delays. -/
theorem embedText_retry_spec (e : EmbedderModel) (text taskType : String)
    (calls : Nat → CallOutcome) :
    (∀ k values, k < 3 →
      (∀ i, i < k → ∃ msg, calls i = .failure msg ∧ isRateLimit msg = true) →
      calls k = .success (some values) →
      (EmbedText e text taskType calls).1.result = .ok values
        ∧ (EmbedText e text taskType calls).1.delays = k
        ∧ (EmbedText e text taskType calls).1.callsMade = k + 1)
    ∧ ((∀ i, i < 3 → ∃ msg, calls i = .failure msg ∧ isRateLimit msg = true) →
      (EmbedText e text taskType calls).1.callsMade = 3
        ∧ (EmbedText e text taskType calls).1.delays = 2
        ∧ ∃ msg, calls 2 = .failure msg
            ∧ (EmbedText e text taskType calls).1.result
                = .error (.embedFailed msg))
    ∧ (∀ msg, calls 0 = .failure msg → isRateLimit msg = false →
      (EmbedText e text taskType calls).1.result = .error (.embedFailed msg)
        ∧ (EmbedText e text taskType calls).1.callsMade = 1
        ∧ (EmbedText e text taskType calls).1.delays = 0) := by
  have hrun : (EmbedText e text taskType calls).1 = embedLoop calls maxRetries 0 "" 0 0 := rfl
  have e3 : maxRetries = 2 + 1 := rfl
  have e2 : (2 : Nat) = 1 + 1 := rfl
  have e1 : (1 : Nat) = 0 + 1 := rfl
  refine ⟨?_, ?_, ?_⟩
  · intro k values hk hfails hsucc
    interval_cases k
    · rw [hrun, e3, embedLoop_success calls 2 0 "" 0 0 values hsucc]
      exact ⟨rfl, rfl, rfl⟩
    · obtain ⟨m0, hc0, hr0⟩ := hfails 0 (by omega)
      rw [hrun, e3, embedLoop_step_transient calls 2 0 "" 0 0 m0 hc0 hr0 (by decide), e2,
        embedLoop_success calls 1 1 m0 1 1 values hsucc]
      exact ⟨rfl, rfl, rfl⟩
    · obtain ⟨m0, hc0, hr0⟩ := hfails 0 (by omega)
      obtain ⟨m1, hc1, hr1⟩ := hfails 1 (by omega)
      rw [hrun, e3, embedLoop_step_transient calls 2 0 "" 0 0 m0 hc0 hr0 (by decide), e2,
        embedLoop_step_transient calls 1 1 m0 1 1 m1 hc1 hr1 (by decide), e1,
        embedLoop_success calls 0 2 m1 2 2 values hsucc]
      exact ⟨rfl, rfl, rfl⟩
  · intro hfails
    obtain ⟨m0, hc0, hr0⟩ := hfails 0 (by omega)
    obtain ⟨m1, hc1, hr1⟩ := hfails 1 (by omega)
    obtain ⟨m2, hc2, hr2⟩ := hfails 2 (by omega)
    rw [hrun, e3, embedLoop_step_transient calls 2 0 "" 0 0 m0 hc0 hr0 (by decide), e2,
      embedLoop_step_transient calls 1 1 m0 1 1 m1 hc1 hr1 (by decide), e1,
      embedLoop_step_noRetry calls 0 2 m1 2 2 m2 hc2 (by simp [hr2]; decide)]
    exact ⟨rfl, rfl, m2, hc2, rfl⟩
  · intro msg hc0 hr0
    rw [hrun, e3, embedLoop_step_noRetry calls 2 0 "" 0 0 msg hc0 (by simp [hr0])]
    exact ⟨rfl, rfl, rfl⟩

/-- Counterexample to C1 as stated: a call that always fails with a
transient `"429"` error makes `EmbedText` return the error wrapped as the
generic embedding-failure error, never a "max retries exceeded" error. -/
theorem embedText_retry_cex :
    (EmbedText ⟨TaskType.unspecified⟩ "text" "RETRIEVAL_DOCUMENT"
        (fun _ => CallOutcome.failure "429")).1.result
      = Except.error (EmbedError.embedFailed "429")
    ∧ ∀ msg,
      (EmbedText ⟨TaskType.unspecified⟩ "text" "RETRIEVAL_DOCUMENT"
          (fun _ => CallOutcome.failure "429")).1.result
        ≠ Except.error (EmbedError.maxRetriesExceeded msg) := by
  have h1 : (EmbedText ⟨TaskType.unspecified⟩ "text" "RETRIEVAL_DOCUMENT"
      (fun _ => CallOutcome.failure "429")).1.result
      = Except.error (EmbedError.embedFailed "429") := by
    have hc : ∀ i : Nat, (fun _ : Nat => CallOutcome.failure "429") i
        = CallOutcome.failure "429" := fun _ => rfl
    have hr : isRateLimit "429" = true := by decide
    have hrun : (EmbedText ⟨TaskType.unspecified⟩ "text" "RETRIEVAL_DOCUMENT"
        (fun _ => CallOutcome.failure "429")).1
        = embedLoop (fun _ => CallOutcome.failure "429") maxRetries 0 "" 0 0 := rfl
    rw [hrun, show maxRetries = 2 + 1 from rfl,
      embedLoop_step_transient _ 2 0 "" 0 0 "429" (hc 0) hr (by decide),
      show (2 : Nat) = 1 + 1 from rfl,
      embedLoop_step_transient _ 1 1 "429" 1 1 "429" (hc 1) hr (by decide),
      show (1 : Nat) = 0 + 1 from rfl,
      embedLoop_step_noRetry _ 0 2 "429" 2 2 "429" (hc 2) (by simp [hr]; decide)]
  refine ⟨h1, fun msg hmsg => ?_⟩
  rw [h1] at hmsg
  simp at hmsg

/-- C10: after `EmbedText` returns — whatever the outcome of the remote
calls — the embedder model's task-type field equals the value it had
before the call: the per-call task-type configuration is always
restored. -/
theorem embedText_taskType_restored (e : EmbedderModel) (text taskType : String)
    (calls : Nat → CallOutcome) :
    (EmbedText e text taskType calls).2.taskType = e.taskType := rfl

/-! ## Vector store lemmas -/

theorem convertResults_mem (rs : List QueryResult) (d : Document)
    (hd : d ∈ convertResults rs) :
    ∃ r ∈ rs, ¬(r.similarity < 7 / 10) ∧ d = resultToDoc r := by
  induction rs with
  | nil => simp [convertResults] at hd
  | cons r rest ih =>
      by_cases hs : r.similarity < 7 / 10
      · simp only [convertResults, hs, if_true] at hd
        obtain ⟨r2, hr2, hp⟩ := ih hd
        exact ⟨r2, List.mem_cons_of_mem r hr2, hp⟩
      · simp only [convertResults, hs, if_false, List.mem_cons] at hd
        rcases hd with rfl | hd
        · exact ⟨r, List.mem_cons_self r rest, hs, rfl⟩
        · obtain ⟨r2, hr2, hp⟩ := ih hd
          exact ⟨r2, List.mem_cons_of_mem r hr2, hp⟩

theorem convertResults_all_below (rs : List QueryResult)
    (hall : ∀ r ∈ rs, r.similarity < 7 / 10) :
    convertResults rs = [] := by
  induction rs with
  | nil => rfl
  | cons r rest ih =>
      simp only [convertResults, hall r (List.mem_cons_self r rest), if_true]
      exact ih fun r2 hr2 => hall r2 (List.mem_cons_of_mem r hr2)

/-- C2: for every non-empty query vector and every `topK`, `Store.Search`
never returns a document converted from a neighbour whose cosine
similarity is strictly below 0.70; when every neighbour returned by the
underlying store is below the threshold, it returns the empty list and no
error. -/
theorem store_search_threshold (s : StoreState) (queryVector : List ℚ)
    (topK : Nat) (rs : List QueryResult) (h : queryVector ≠ []) :
    (∀ l, (Store.Search s queryVector topK (Except.ok rs)).1 = Except.ok l →
      ∀ d ∈ l, ∃ r ∈ rs, ¬(r.similarity < 7 / 10) ∧ d = resultToDoc r)
    ∧ ((∀ r ∈ rs, r.similarity < 7 / 10) →
      (Store.Search s queryVector topK (Except.ok rs)).1 = Except.ok []) := by
  unfold Store.Search
  simp only [h, if_false]
  constructor
  · intro l hl d hd
    have : convertResults rs = l := by simpa using hl
    rw [← this] at hd
    exact convertResults_mem rs d hd
  · intro hall
    simp [convertResults_all_below rs hall]

/-- Witness for C2: query `[1]` against two neighbours with similarities
0.9 and 0.5. -/
theorem store_search_threshold_witness :
    (∀ l, (Store.Search ⟨[]⟩ [1] 10 (Except.ok
          [⟨"a", "ca", none, 9 / 10⟩, ⟨"b", "cb", none, 1 / 2⟩])).1 = Except.ok l →
      ∀ d ∈ l, ∃ r ∈ [(⟨"a", "ca", none, 9 / 10⟩ : QueryResult), ⟨"b", "cb", none, 1 / 2⟩],
        ¬(r.similarity < 7 / 10) ∧ d = resultToDoc r)
    ∧ ((∀ r ∈ [(⟨"a", "ca", none, 9 / 10⟩ : QueryResult), ⟨"b", "cb", none, 1 / 2⟩],
          r.similarity < 7 / 10) →
      (Store.Search ⟨[]⟩ [1] 10 (Except.ok
          [⟨"a", "ca", none, 9 / 10⟩, ⟨"b", "cb", none, 1 / 2⟩])).1 = Except.ok []) :=
  store_search_threshold ⟨[]⟩ [1] 10
    [⟨"a", "ca", none, 9 / 10⟩, ⟨"b", "cb", none, 1 / 2⟩] (by simp)

/-- C7: `AddDocument` on a document without a vector and `Search` on an
empty query vector each return an error with no call to the underlying
collection, and the store's contents are unchanged. -/
theorem store_validation_rejects (s : StoreState) (doc : Document)
    (addErr : Option String) (topK : Nat)
    (queryResp : Except String (List QueryResult)) (h : doc.vector = []) :
    (∃ e, (Store.AddDocument s doc addErr).1 = Except.error e)
    ∧ (Store.AddDocument s doc addErr).2.1 = s
    ∧ (Store.AddDocument s doc addErr).2.2 = []
    ∧ (∃ e, (Store.Search s [] topK queryResp).1 = Except.error e)
    ∧ (Store.Search s [] topK queryResp).2.1 = s
    ∧ (Store.Search s [] topK queryResp).2.2 = [] := by
  unfold Store.AddDocument Store.Search
  simp [h]

/-- Witness for C7 at a concrete vectorless document. -/
theorem store_validation_rejects_witness :
    (∃ e, (Store.AddDocument ⟨[("x", [1], [], "c")]⟩
      ⟨"d1", "t", "c", [], [], "p"⟩ none).1 = Except.error e)
    ∧ (Store.AddDocument ⟨[("x", [1], [], "c")]⟩
        ⟨"d1", "t", "c", [], [], "p"⟩ none).2.1 = ⟨[("x", [1], [], "c")]⟩
    ∧ (Store.AddDocument ⟨[("x", [1], [], "c")]⟩
        ⟨"d1", "t", "c", [], [], "p"⟩ none).2.2 = []
    ∧ (∃ e, (Store.Search ⟨[("x", [1], [], "c")]⟩ [] 10 (Except.ok [])).1
        = Except.error e)
    ∧ (Store.Search ⟨[("x", [1], [], "c")]⟩ [] 10 (Except.ok [])).2.1
        = ⟨[("x", [1], [], "c")]⟩
    ∧ (Store.Search ⟨[("x", [1], [], "c")]⟩ [] 10 (Except.ok [])).2.2 = [] :=
  store_validation_rejects ⟨[("x", [1], [], "c")]⟩
    ⟨"d1", "t", "c", [], [], "p"⟩ none 10 (Except.ok []) rfl

/-! ## Pipeline lemmas -/

theorem processDoc_stats (st : PipelineStats) (doc : Document)
    (embedRes : Except String (List ℚ)) (persistErr : Option String) :
    (processDoc st doc embedRes persistErr).1.processed = st.processed + 1
    ∧ (processDoc st doc embedRes persistErr).1.success
        + (processDoc st doc embedRes persistErr).1.errors
        + (processDoc st doc embedRes persistErr).1.skipped
      = st.success + st.errors + st.skipped + 1
    ∧ ((processDoc st doc embedRes persistErr).1.success = st.success
        ∨ (processDoc st doc embedRes persistErr).1.success = st.success + 1)
    ∧ ((processDoc st doc embedRes persistErr).1.errors = st.errors
        ∨ (processDoc st doc embedRes persistErr).1.errors = st.errors + 1)
    ∧ ((processDoc st doc embedRes persistErr).1.skipped = st.skipped
        ∨ (processDoc st doc embedRes persistErr).1.skipped = st.skipped + 1) := by
  unfold processDoc
  by_cases hlen : doc.content.length < 50
  · simp [hlen]
    omega
  · simp only [hlen, if_false]
    cases embedRes with
    | error e => simp; omega
    | ok v =>
        cases persistErr with
        | some e => simp; omega
        | none => simp; omega

theorem runWorkers_inv (items : List WorkItem) :
    ∀ st : PipelineStats,
      st.processed = st.success + st.errors + st.skipped →
      (runWorkers st items).processed
        = (runWorkers st items).success + (runWorkers st items).errors
            + (runWorkers st items).skipped := by
  induction items with
  | nil => intro st h; simpa [runWorkers]
  | cons it rest ih =>
      intro st h
      have hstep := processDoc_stats st it.doc it.embedRes it.persistErr
      show (runWorkers ((processDoc st it.doc it.embedRes it.persistErr).1) rest).processed = _
      exact ih _ (by omega)

/-- C3: at pipeline completion the final statistics satisfy
`processed = succeeded + failed + skipped` exactly, and every processed
item increments `processed` exactly once and exactly one of the
success/error/skip counters exactly once. -/
theorem pipeline_stats_invariant (items : List WorkItem) :
    ((runWorkers ⟨0, 0, 0, 0⟩ items).processed
      = (runWorkers ⟨0, 0, 0, 0⟩ items).success
          + (runWorkers ⟨0, 0, 0, 0⟩ items).errors
          + (runWorkers ⟨0, 0, 0, 0⟩ items).skipped)
    ∧ ∀ (st : PipelineStats) (doc : Document)
        (embedRes : Except String (List ℚ)) (persistErr : Option String),
      (processDoc st doc embedRes persistErr).1.processed = st.processed + 1
      ∧ (processDoc st doc embedRes persistErr).1.success
          + (processDoc st doc embedRes persistErr).1.errors
          + (processDoc st doc embedRes persistErr).1.skipped
        = st.success + st.errors + st.skipped + 1
      ∧ ((processDoc st doc embedRes persistErr).1.success = st.success
          ∨ (processDoc st doc embedRes persistErr).1.success = st.success + 1)
      ∧ ((processDoc st doc embedRes persistErr).1.errors = st.errors
          ∨ (processDoc st doc embedRes persistErr).1.errors = st.errors + 1)
      ∧ ((processDoc st doc embedRes persistErr).1.skipped = st.skipped
          ∨ (processDoc st doc embedRes persistErr).1.skipped = st.skipped + 1) :=
  ⟨runWorkers_inv items ⟨0, 0, 0, 0⟩ rfl,
    fun st doc embedRes persistErr => processDoc_stats st doc embedRes persistErr⟩

/-- C6: a dequeued document whose content is shorter than 50 code points
is recorded as skipped (`skipped` and `processed` each incremented by 1,
the other counters unchanged) and causes no embedding call and no store
add call. -/
theorem worker_skips_short (st : PipelineStats) (doc : Document)
    (embedRes : Except String (List ℚ)) (persistErr : Option String)
    (h : doc.content.length < 50) :
    (processDoc st doc embedRes persistErr).1.skipped = st.skipped + 1
    ∧ (processDoc st doc embedRes persistErr).1.processed = st.processed + 1
    ∧ (processDoc st doc embedRes persistErr).1.success = st.success
    ∧ (processDoc st doc embedRes persistErr).1.errors = st.errors
    ∧ (processDoc st doc embedRes persistErr).2.1 = []
    ∧ (processDoc st doc embedRes persistErr).2.2 = [] := by
  unfold processDoc
  simp [h]

/-- Witness for C6 at a document with 5-character content. -/
theorem worker_skips_short_witness :
    (processDoc ⟨7, 3, 2, 2⟩ ⟨"d1", "t", "hello", [], [], "p"⟩
        (Except.ok [1]) none).1.skipped = 2 + 1
    ∧ (processDoc ⟨7, 3, 2, 2⟩ ⟨"d1", "t", "hello", [], [], "p"⟩
        (Except.ok [1]) none).1.processed = 7 + 1
    ∧ (processDoc ⟨7, 3, 2, 2⟩ ⟨"d1", "t", "hello", [], [], "p"⟩
        (Except.ok [1]) none).1.success = 3
    ∧ (processDoc ⟨7, 3, 2, 2⟩ ⟨"d1", "t", "hello", [], [], "p"⟩
        (Except.ok [1]) none).1.errors = 2
    ∧ (processDoc ⟨7, 3, 2, 2⟩ ⟨"d1", "t", "hello", [], [], "p"⟩
        (Except.ok [1]) none).2.1 = []
    ∧ (processDoc ⟨7, 3, 2, 2⟩ ⟨"d1", "t", "hello", [], [], "p"⟩
        (Except.ok [1]) none).2.2 = [] :=
  worker_skips_short ⟨7, 3, 2, 2⟩ ⟨"d1", "t", "hello", [], [], "p"⟩
    (Except.ok [1]) none (by decide)

/-- C9: for every document the worker embeds (content of at least 50 code
points), the text sent to the embedding service is
`title + "\n\n" + content` when the title is non-empty and `content`
alone when the title is empty. -/
theorem worker_embedding_text (st : PipelineStats) (doc : Document)
    (embedRes : Except String (List ℚ)) (persistErr : Option String)
    (h : 50 ≤ doc.content.length) :
    ∃ t, (processDoc st doc embedRes persistErr).2.1 = [t]
      ∧ (doc.title ≠ "" → t = doc.title ++ "\n\n" ++ doc.content)
      ∧ (doc.title = "" → t = doc.content) := by
  have hlen : ¬(doc.content.length < 50) := by omega
  refine ⟨if doc.title ≠ "" then doc.title ++ "\n\n" ++ doc.content else doc.content,
    ?_, ?_, ?_⟩
  · unfold processDoc
    simp only [hlen, if_false]
    cases embedRes with
    | error e => rfl
    | ok v => cases persistErr <;> rfl
  · intro ht
    simp [ht]
  · intro ht
    simp [ht]

/-- Witness for C9 at a titled document with 50-character content. -/
theorem worker_embedding_text_witness :
    ∃ t, (processDoc ⟨0, 0, 0, 0⟩
        ⟨"d1", "T", String.mk (List.replicate 50 'a'), [], [], "p"⟩
        (Except.ok [1]) none).2.1 = [t]
      ∧ (("T" : String) ≠ "" → t = "T" ++ "\n\n" ++ String.mk (List.replicate 50 'a'))
      ∧ (("T" : String) = "" → t = String.mk (List.replicate 50 'a')) :=
  worker_embedding_text ⟨0, 0, 0, 0⟩
    ⟨"d1", "T", String.mk (List.replicate 50 'a'), [], [], "p"⟩
    (Except.ok [1]) none (by decide)

/-- C8: the pipeline coordinator's return value is exactly the producer's
error, independent of the worker items' outcomes, and in the
coordinator's event trace the return event comes strictly after every
worker's exit event. -/
theorem pipeline_returns_producer_error (workerCount : Nat)
    (items : List WorkItem) (producerErr : Option String) :
    (processDocumentsPipeline workerCount items producerErr).2.1 = producerErr
    ∧ (∀ items2 : List WorkItem,
        (processDocumentsPipeline workerCount items2 producerErr).2.1 = producerErr)
    ∧ (∀ i, i < workerCount →
        ∃ j k, j < k
          ∧ ((processDocumentsPipeline workerCount items producerErr).2.2).get? j
              = some (PipelineEvent.workerExited i)
          ∧ ((processDocumentsPipeline workerCount items producerErr).2.2).get? k
              = some (PipelineEvent.returned producerErr)) := by
  refine ⟨rfl, fun _ => rfl, ?_⟩
  intro i hi
  refine ⟨i, workerCount + 1, by omega, ?_, ?_⟩
  · show (((List.range workerCount).map PipelineEvent.workerExited)
        ++ [PipelineEvent.producerJoined, PipelineEvent.returned producerErr]).get? i = _
    rw [List.get?_append (by simpa using hi), List.get?_map, List.get?_range hi]
    rfl
  · show (((List.range workerCount).map PipelineEvent.workerExited)
        ++ [PipelineEvent.producerJoined, PipelineEvent.returned producerErr]).get? (workerCount + 1) = _
    rw [List.get?_append_right (by simp)]
    simp
